import Mathlib

/-
Verification development for the ais-uchet data-access and integrity layer.

The definitions below are a shallow embedding of the Python source:
  - src/models/base.py      (BaseModel: create / read / update / delete /
                             find / count / exists / _audit_log)
  - src/database/connection.py (DatabaseConnection.transaction)
  - src/database/migrations.py (Migration: apply_migration / run_all /
                             get_applied_migrations)
  - src/models/user.py      (User.authenticate)

SQL values are modelled by `Value` (NULL, integer, text); a row is an
association list from column names to values, mirroring a Python dict
(insertion order preserved, assignment overwrites in place).  The SQLite
engine's accept/reject decision for a statement (e.g. a unique or
foreign-key constraint violation) is passed in as an explicit boolean
oracle, since the embedding does not model the engine's constraints
themselves; a raised Python exception is `PyResult.exn`.
-/

set_option autoImplicit false

namespace AisUchet

/-- SQL storage classes used by this schema: NULL, INTEGER, TEXT. -/
inductive Value where
  | null : Value
  | int : Int → Value
  | str : String → Value
deriving DecidableEq, Repr

/-- A row / Python dict: association list from column name to value,
in insertion order. -/
abbrev Row := List (String × Value)

/-- Result of a Python call: normal return, or a propagating exception. -/
inductive PyResult (α : Type) where
  | ok : α → PyResult α
  | exn : String → PyResult α
deriving DecidableEq, Repr

/-- First value bound to a key, like `dict.__getitem__` / SQL column lookup. -/
def rowGet : Row → String → Option Value
  | [], _ => none
  | (k, v) :: rest, key => if k = key then some v else rowGet rest key

/-- Python `key in data`. -/
def rowHas (r : Row) (k : String) : Bool :=
  (rowGet r k).isSome

/-- Python `data[key] = v`: overwrite in place if the key exists,
otherwise append at the end. -/
def rowSet : Row → String → Value → Row
  | [], k, v => [(k, v)]
  | (k1, v1) :: rest, k, v =>
      if k1 = k then (k, v) :: rest else (k1, v1) :: rowSet rest k v

/-- SQL `UPDATE ... SET` of every binding of `upd` applied to row `old`. -/
def updateFields (old : Row) : Row → Row
  | [] => old
  | (k, v) :: rest => updateFields (rowSet old k v) rest

/-- One business table: rows keyed by the integer primary key, plus the
next value AUTOINCREMENT will hand out (`cursor.lastrowid`). -/
structure Table where
  rows : List (Nat × Row)
  nextId : Nat
deriving DecidableEq, Repr

/-- A row of the `audit_log` table, as built by `BaseModel._audit_log`. -/
structure AuditEntry where
  user_id : Int
  action : String
  table_name : String
  record_id : Option Nat
  old_values : Option Row
  new_values : Option Row
  created_at : Value
deriving DecidableEq, Repr

/-- The store state seen by one `BaseModel`: its table and the shared
`audit_log` table. -/
structure DBState where
  table : Table
  audit : List AuditEntry
deriving DecidableEq, Repr

/-- The per-instance configuration of `BaseModel`: class attributes
`table_name` / `primary_key` and the constructor's `audit_user_id`. -/
structure BaseModel where
  table_name : String
  primary_key : String
  audit_user_id : Option Int
deriving DecidableEq, Repr

/-- Python truthiness of `self.audit_user_id`: `None` and `0` are falsy. -/
def uidTruthy : Option Int → Bool
  | none => false
  | some u => decide (u ≠ 0)

/-- Python `json.dumps(vals) if vals else None`: an empty dict is falsy,
so it serializes to NULL just like `None` does. -/
def serializeVals : Option Row → Option Row
  | none => none
  | some r => if r = [] then none else some r

/-- BaseModel._audit_log: returns immediately when `audit_user_id` is
falsy; otherwise tries to INSERT one `audit_log` row.  `auditOk` is the
engine's verdict on that INSERT; on failure the exception is caught and
logged, never re-raised, so the state is returned unchanged. -/
def auditLog (m : BaseModel) (st : DBState) (action : String)
    (recordId : Option Nat) (oldValues newValues : Option Row)
    (now : Value) (auditOk : Bool) : DBState :=
  if uidTruthy m.audit_user_id then
    if auditOk then
      { st with audit := st.audit ++
          [{ user_id := m.audit_user_id.getD 0
             action := action
             table_name := m.table_name
             record_id := recordId
             old_values := serializeVals oldValues
             new_values := serializeVals newValues
             created_at := now }] }
    else st
  else st

/-- Python `if key not in data: data[key] = v`. -/
def setIfAbsent (r : Row) (k : String) (v : Value) : Row :=
  if rowHas r k then r else rowSet r k v

/-- The three field-filling statements at the top of BaseModel.create:
`created_at` / `updated_at` when absent, then `created_by` when
`audit_user_id` is truthy and the key is absent. -/
def fillCreate (m : BaseModel) (data : Row) (now : Value) : Row :=
  let data1 := setIfAbsent data "created_at" now
  let data2 := setIfAbsent data1 "updated_at" now
  if uidTruthy m.audit_user_id && !rowHas data2 "created_by"
  then rowSet data2 "created_by" (Value.int (m.audit_user_id.getD 0))
  else data2

/-- BaseModel.create: fills `created_at` / `updated_at` when absent,
fills `created_by` when `audit_user_id` is truthy and the key is absent,
INSERTs (the engine's verdict is `insertOk`; on rejection the exception
is logged and re-raised), then calls `_audit_log` with action CREATE. -/
def create (m : BaseModel) (st : DBState) (data : Row) (now : Value)
    (insertOk auditOk : Bool) : PyResult (Option Nat) × DBState :=
  let data3 := fillCreate m data now
  if insertOk then
    let rid := st.table.nextId
    let st1 : DBState :=
      { st with table := { rows := st.table.rows ++ [(rid, data3)]
                           nextId := rid + 1 } }
    let st2 := auditLog m st1 "CREATE" (some rid) none (some data3) now auditOk
    (.ok (some rid), st2)
  else
    (.exn "IntegrityError", st)

/-- BaseModel.read: `SELECT * WHERE primary_key = ?` then `fetchone` —
the first row with the given key, as a dict, or None. -/
def readRec (st : DBState) (rid : Nat) : Option Row :=
  (st.table.rows.find? (fun p => decide (p.1 = rid))).map (fun p => p.2)

/-- SQL `UPDATE table SET ... WHERE pk = rid`: every row with key `rid`
gets the bindings of `upd` applied. -/
def setRows (rows : List (Nat × Row)) (rid : Nat) (upd : Row) : List (Nat × Row) :=
  rows.map (fun p => if p.1 = rid then (p.1, updateFields p.2 upd) else p)

/-- The field-filling statements of BaseModel.update: always overwrites
`updated_at`, fills `updated_by` when `audit_user_id` is truthy and the
key is absent. -/
def fillUpdate (m : BaseModel) (data : Row) (now : Value) : Row :=
  let data1 := rowSet data "updated_at" now
  if uidTruthy m.audit_user_id && !rowHas data1 "updated_by"
  then rowSet data1 "updated_by" (Value.int (m.audit_user_id.getD 0))
  else data1

/-- BaseModel.update: reads the old row first (missing row: warn and
return False); fills `updated_at` / `updated_by`; runs the UPDATE (engine
verdict `updOk` — on rejection the outer `except` catches, logs, and
returns False); then `_audit_log` with action UPDATE. -/
def update (m : BaseModel) (st : DBState) (rid : Nat) (data : Row)
    (now : Value) (updOk auditOk : Bool) : PyResult Bool × DBState :=
  match readRec st rid with
  | none => (.ok false, st)
  | some oldData =>
    let data2 := fillUpdate m data now
    if updOk then
      let st1 : DBState :=
        { st with table := { st.table with rows := setRows st.table.rows rid data2 } }
      let st2 := auditLog m st1 "UPDATE" (some rid) (some oldData) (some data2) now auditOk
      (.ok true, st2)
    else
      (.ok false, st)

/-- BaseModel.delete: reads the old row first (missing row: warn and
return False); runs the DELETE (engine verdict `delOk` — on rejection the
outer `except` catches, logs, and returns False); then `_audit_log` with
action DELETE and new values None. -/
def delete (m : BaseModel) (st : DBState) (rid : Nat) (now : Value)
    (delOk auditOk : Bool) : PyResult Bool × DBState :=
  match readRec st rid with
  | none => (.ok false, st)
  | some oldData =>
    if delOk then
      let st1 : DBState :=
        { st with table := { st.table with
                             rows := st.table.rows.filter (fun p => decide (p.1 ≠ rid)) } }
      let st2 := auditLog m st1 "DELETE" (some rid) (some oldData) none now auditOk
      (.ok true, st2)
    else
      (.ok false, st)

/-- A thread's SQLite connection (opened with `isolation_level=None`,
i.e. autocommit): `committed` is the durable state of the database file,
`openTx` is `some s` while an explicit `BEGIN` is pending with working
state `s`, and `none` when no transaction is open. -/
structure Conn (σ : Type) where
  committed : σ
  openTx : Option σ
deriving DecidableEq, Repr

/-- SQL `BEGIN`: opens an explicit transaction whose working state starts
from the committed state. -/
def beginTx {σ : Type} (c : Conn σ) : Conn σ :=
  { c with openTx := some c.committed }

/-- SQL `COMMIT`: makes the open transaction's working state durable and
closes the transaction. -/
def commitTx {σ : Type} (c : Conn σ) : Conn σ :=
  match c.openTx with
  | some s => { committed := s, openTx := none }
  | none => c

/-- SQL `ROLLBACK`: discards the open transaction's working state and
closes the transaction. -/
def rollbackTx {σ : Type} (c : Conn σ) : Conn σ :=
  { committed := c.committed, openTx := none }

/-- Runs the caller's body on the open transaction's working state;
statements issued by the body act on that state until COMMIT or
ROLLBACK. -/
def runBody {σ α : Type} (c : Conn σ) (body : σ → PyResult α × σ) :
    PyResult α × Conn σ :=
  match c.openTx with
  | some s =>
    let r := body s
    (r.1, { c with openTx := some r.2 })
  | none =>
    let r := body c.committed
    (r.1, { c with committed := r.2 })

/-- DatabaseConnection.transaction: BEGIN, yield to the caller's body,
COMMIT on normal completion; on any exception ROLLBACK, log, and
re-raise the same exception. -/
def transaction {σ α : Type} (c : Conn σ) (body : σ → PyResult α × σ) :
    PyResult α × Conn σ :=
  let c1 := beginTx c
  let r := runBody c1 body
  match r.1 with
  | .ok a => (.ok a, commitTx r.2)
  | .exn e => (.exn e, rollbackTx r.2)

/-- One statement of a migration script, as the engine sees it: `ok` is
the engine's verdict (False models a failing statement) and `eff` names
the schema change it performs when accepted. -/
structure Stmt where
  ok : Bool
  eff : String
deriving DecidableEq, Repr

/-- The database state the migration runner works on: the accumulated
schema changes and the `migrations` ledger of (version, name) rows in
insertion order. -/
structure MigDB where
  schema : List String
  ledger : List (Nat × String)
deriving DecidableEq, Repr

/-- The `for statement in sql.split` loop of apply_migration: executes
statements in literal order; the first rejected statement raises, leaving
the engine at the state reached so far (inside the open transaction). -/
def runStmts : MigDB → List Stmt → PyResult Unit × MigDB
  | db, [] => (.ok (), db)
  | db, s :: rest =>
    if s.ok then runStmts { db with schema := db.schema ++ [s.eff] } rest
    else (.exn ("statement failed: " ++ s.eff), db)

/-- The `INSERT INTO migrations (version, name)` of apply_migration: the
`version` column is UNIQUE, so the engine rejects a duplicate version. -/
def ledgerInsert (db : MigDB) (version : Nat) (name : String) :
    PyResult Unit × MigDB :=
  if db.ledger.any (fun p => decide (p.1 = version)) then
    (.exn "UNIQUE constraint failed: migrations.version", db)
  else
    (.ok (), { db with ledger := db.ledger ++ [(version, name)] })

/-- The body of apply_migration's `with self.db.transaction()` block:
all of the migration's statements in order, then the ledger INSERT. -/
def applyMigrationBody (version : Nat) (name : String) (stmts : List Stmt)
    (db : MigDB) : PyResult Unit × MigDB :=
  let r := runStmts db stmts
  match r.1 with
  | .ok _ => ledgerInsert r.2 version name
  | .exn e => (.exn e, r.2)

/-- Migration.apply_migration: runs the statements and the ledger insert
inside one scoped transaction; on any failure the outer `except` logs and
re-raises after the transaction has rolled back. -/
def apply_migration (c : Conn MigDB) (version : Nat) (name : String)
    (stmts : List Stmt) : PyResult Unit × Conn MigDB :=
  transaction c (applyMigrationBody version name stmts)

/-- Insert `v` into an ascending list, keeping it ascending. -/
def sortedInsert (v : Nat) : List Nat → List Nat
  | [] => [v]
  | x :: xs => if v ≤ x then v :: x :: xs else x :: sortedInsert v xs

/-- Insertion sort, ascending — the effect of `ORDER BY version`. -/
def sortAsc : List Nat → List Nat
  | [] => []
  | x :: xs => sortedInsert x (sortAsc xs)

/-- Migration.get_applied_migrations: `SELECT version FROM migrations
ORDER BY version` as a list of version numbers. -/
def get_applied (db : MigDB) : List Nat :=
  sortAsc (db.ledger.map (fun p => p.1))

/-- The `for version, name, sql in migrations` loop of run_all: skips a
version already in `applied` (computed once, before the loop), otherwise
applies it; an apply failure propagates out of the loop. -/
def runAllLoop : Conn MigDB → List Nat → List (Nat × String × List Stmt) →
    PyResult Unit × Conn MigDB
  | c, _, [] => (.ok (), c)
  | c, applied, (v, n, stmts) :: rest =>
    if v ∈ applied then runAllLoop c applied rest
    else
      let r := apply_migration c v n stmts
      match r.1 with
      | .ok _ => runAllLoop r.2 applied rest
      | .exn e => (.exn e, r.2)

/-- Migration.run_all: reads the applied versions once, then applies every
migration of the list whose version is absent. -/
def run_all (c : Conn MigDB) (migs : List (Nat × String × List Stmt)) :
    PyResult Unit × Conn MigDB :=
  runAllLoop c (get_applied c.committed) migs

/-- Migration._get_all_migrations: the literal ordered migration list —
versions 1, 2, 3 with their scripts (the scripts' statements are
abstracted as `Stmt` lists). -/
def all_migrations (s1 s2 s3 : List Stmt) : List (Nat × String × List Stmt) :=
  [(1, "initial_schema", s1), (2, "add_indexes", s2), (3, "initial_data", s3)]

/-- The shape of one value of BaseModel.find's `conditions` dict, as the
source discriminates it: Python `None`, a list/tuple of values, or any
other (literal) value. -/
inductive CondVal where
  | null : CondVal
  | seq : List Value → CondVal
  | lit : Value → CondVal
deriving DecidableEq, Repr

/-- One generated WHERE clause of BaseModel.find. -/
inductive WhereClause where
  | isNull : String → WhereClause
  | inList : String → List Value → WhereClause
  | eqVal : String → Value → WhereClause
deriving DecidableEq, Repr

/-- The clause-building loop of BaseModel.find: `None` becomes
`key IS NULL`, a list/tuple becomes `key IN (...)` with its elements as
bound parameters, anything else becomes `key = ?`. -/
def buildWhere : List (String × CondVal) → List WhereClause
  | [] => []
  | (k, CondVal.null) :: rest => WhereClause.isNull k :: buildWhere rest
  | (k, CondVal.seq xs) :: rest => WhereClause.inList k xs :: buildWhere rest
  | (k, CondVal.lit v) :: rest => WhereClause.eqVal k v :: buildWhere rest

/-- The value of column `k` in row `r`; a column missing from the stored
row reads as NULL. -/
def getVal (r : Row) (k : String) : Value :=
  (rowGet r k).getD Value.null

/-- SQLite's truth value of one WHERE clause on one row (three-valued
logic collapsed to "row selected or not": an UNKNOWN comparison does not
select the row). -/
def evalClause (r : Row) : WhereClause → Bool
  | WhereClause.isNull k => decide (getVal r k = Value.null)
  | WhereClause.inList k xs =>
      decide (getVal r k ≠ Value.null) && xs.contains (getVal r k)
  | WhereClause.eqVal k v =>
      decide (getVal r k ≠ Value.null) && decide (v ≠ Value.null)
        && decide (getVal r k = v)

/-- SQLite's cross-type ordering for this schema's values:
NULL < INTEGER < TEXT, integers by value, text bytewise. -/
def valLe : Value → Value → Bool
  | Value.null, _ => true
  | Value.int _, Value.null => false
  | Value.int a, Value.int b => decide (a ≤ b)
  | Value.int _, Value.str _ => true
  | Value.str _, Value.null => false
  | Value.str _, Value.int _ => false
  | Value.str a, Value.str b => decide (a ≤ b)

/-- Insert into a list sorted by `le`, keeping it sorted. -/
def insertBy {α : Type} (le : α → α → Bool) (a : α) : List α → List α
  | [] => [a]
  | x :: xs => if le a x then a :: x :: xs else x :: insertBy le a xs

/-- Insertion sort by `le` — a stable model of SQL `ORDER BY`. -/
def sortBy {α : Type} (le : α → α → Bool) : List α → List α
  | [] => []
  | x :: xs => insertBy le x (sortBy le xs)

/-- The `ORDER BY` suffix of BaseModel.find: absent leaves the scan
order, present sorts by the named column's value. -/
def applyOrder (rows : List Row) : Option String → List Row
  | none => rows
  | some k => sortBy (fun r1 r2 => valLe (getVal r1 k) (getVal r2 k)) rows

/-- The `LIMIT` / `OFFSET` suffix of BaseModel.find: `if limit:` is a
truthiness test, so a missing or zero limit yields no LIMIT clause, and
OFFSET is only emitted inside the limit branch when offset is truthy. -/
def applyPage (rows : List Row) : Option Nat → Option Nat → List Row
  | none, _ => rows
  | some n, off =>
    if n = 0 then rows
    else
      match off with
      | none => List.take n rows
      | some mo =>
        if mo = 0 then List.take n rows else List.take n (List.drop mo rows)

/-- BaseModel.find: builds the WHERE clauses when the conditions dict is
truthy (non-empty), appends them conjunctively when any were built, then
applies ORDER BY and LIMIT/OFFSET; the resulting rows are fetched. -/
def find (rows : List Row) (conds : List (String × CondVal))
    (orderBy : Option String) (lim off : Option Nat) : List Row :=
  let filtered :=
    if conds.isEmpty then rows
    else
      let wcs := buildWhere conds
      if wcs.isEmpty then rows
      else rows.filter (fun r => wcs.all (evalClause r))
  applyPage (applyOrder filtered orderBy) lim off

/-- The spec's reading of one predicate entry, dispatched on value shape:
a literal is an equality test, null is an IS NULL test, a sequence is a
set-membership test (all with SQL comparison semantics). -/
def specMatch (r : Row) (k : String) : CondVal → Bool
  | CondVal.null => decide (getVal r k = Value.null)
  | CondVal.lit v =>
      decide (getVal r k ≠ Value.null) && decide (v ≠ Value.null)
        && decide (getVal r k = v)
  | CondVal.seq xs =>
      decide (getVal r k ≠ Value.null) && xs.contains (getVal r k)

/-- A row of the `users` table (the columns authenticate touches). -/
structure UserRow where
  id : Nat
  username : String
  password_hash : String
  full_name : String
  is_active : Bool
  role_id : Nat
deriving DecidableEq, Repr

/-- A row of the `roles` table (the columns authenticate touches). -/
structure RoleRow where
  id : Nat
  name : String
  can_read : Bool
  can_write : Bool
  can_delete : Bool
  can_approve : Bool
  can_admin : Bool
deriving DecidableEq, Repr

/-- The row shape returned by authenticate's query: `u.*` plus the role
name and the five capability flags from the joined `roles` row. -/
structure AuthData where
  id : Nat
  username : String
  password_hash : String
  full_name : String
  is_active : Bool
  role_id : Nat
  role_name : String
  can_read : Bool
  can_write : Bool
  can_delete : Bool
  can_approve : Bool
  can_admin : Bool
deriving DecidableEq, Repr

/-- The `SELECT u.*, r.... FROM users u JOIN roles r ON u.role_id = r.id
WHERE u.username = ? AND u.is_active = 1` of authenticate, followed by
`fetchone`: the first active user with that username that joins to a
role. -/
def lookupActive (users : List UserRow) (roles : List RoleRow)
    (username : String) : Option (UserRow × RoleRow) :=
  (users.find? (fun u => decide (u.username = username) && u.is_active)).bind
    (fun u => (roles.find? (fun r => decide (r.id = u.role_id))).map
      (fun r => (u, r)))

/-- User.authenticate: absent when the active-user lookup finds no row;
otherwise verifies the supplied password against the stored hash with the
injected verification capability — absent on mismatch, the joined user
data on success. -/
def authenticate (users : List UserRow) (roles : List RoleRow)
    (verify : String → String → Bool) (username password : String) :
    Option AuthData :=
  match lookupActive users roles username with
  | none => none
  | some (u, r) =>
    if verify password u.password_hash then
      some { id := u.id, username := u.username
             password_hash := u.password_hash, full_name := u.full_name
             is_active := u.is_active, role_id := u.role_id
             role_name := r.name, can_read := r.can_read
             can_write := r.can_write, can_delete := r.can_delete
             can_approve := r.can_approve, can_admin := r.can_admin }
    else none

/-! ### Helper lemmas about rows and the audit log -/

theorem rowGet_rowSet (r : Row) (k1 : String) (v1 : Value) (k : String) :
    rowGet (rowSet r k1 v1) k = if k = k1 then some v1 else rowGet r k := by
  induction r with
  | nil =>
    simp only [rowSet, rowGet]
    by_cases h : k = k1
    · subst h; simp
    · rw [if_neg (fun hh => h hh.symm), if_neg h]
  | cons hd tl ih =>
    obtain ⟨ka, va⟩ := hd
    simp only [rowSet]
    by_cases h1 : ka = k1
    · subst h1
      rw [if_pos rfl]
      simp only [rowGet]
      by_cases h2 : k = ka
      · subst h2
        rw [if_pos rfl, if_pos rfl]
      · rw [if_neg (fun hh => h2 hh.symm), if_neg h2,
          if_neg (fun hh => h2 hh.symm)]
    · rw [if_neg h1]
      simp only [rowGet]
      by_cases h2 : ka = k
      · subst h2
        rw [if_pos rfl, if_neg h1, if_pos rfl]
      · rw [if_neg h2, ih]
        by_cases h3 : k = k1
        · rw [if_pos h3, if_pos h3]
        · rw [if_neg h3, if_neg h3, if_neg h2]

theorem rowGet_none_of_not_has (r : Row) (k : String) (h : rowHas r k = false) :
    rowGet r k = none := by
  unfold rowHas at h
  cases hg : rowGet r k with
  | none => rfl
  | some v => rw [hg] at h; simp at h

theorem auditLog_table (m : BaseModel) (st : DBState) (action : String)
    (recordId : Option Nat) (oldValues newValues : Option Row)
    (now : Value) (auditOk : Bool) :
    (auditLog m st action recordId oldValues newValues now auditOk).table = st.table := by
  unfold auditLog
  split <;> [skip; rfl]
  split <;> rfl

/-! ### Claim C5 -/

/-- Claim C5: for every id with no matching row, `update(id, fields)` and
`delete(id)` each return False without raising an exception, and the
whole store state — the target table and the audit log — is exactly as
before the call. -/
theorem claim_C5 (m : BaseModel) (st : DBState) (rid : Nat) (data : Row)
    (now : Value) (updOk delOk auditOk : Bool)
    (h : readRec st rid = none) :
    update m st rid data now updOk auditOk = (.ok false, st) ∧
    delete m st rid now delOk auditOk = (.ok false, st) := by
  constructor
  · unfold update; rw [h]
  · unfold delete; rw [h]

/-- Witness for C5: a store with no row 5 — update and delete return
False and leave the state untouched. -/
theorem claim_C5_witness :
    readRec ⟨⟨[], 1⟩, []⟩ 5 = none ∧
    update ⟨"nomenclature", "id", some 1⟩ ⟨⟨[], 1⟩, []⟩ 5
      [("name", Value.str "x")] (Value.str "t") true true =
        (.ok false, ⟨⟨[], 1⟩, []⟩) ∧
    delete ⟨"nomenclature", "id", some 1⟩ ⟨⟨[], 1⟩, []⟩ 5
      (Value.str "t") true true = (.ok false, ⟨⟨[], 1⟩, []⟩) := by
  refine ⟨rfl, ?_⟩
  exact claim_C5 ⟨"nomenclature", "id", some 1⟩ ⟨⟨[], 1⟩, []⟩ 5
    [("name", Value.str "x")] (Value.str "t") true true true rfl

/-! ### Claim C10 -/

/-- Claim C10: a mutating operation run with acting principal id 0
behaves exactly as with no acting principal at all — create, update and
delete compute identical results and states, `_audit_log` writes nothing
— because `if self.audit_user_id:` is a truthiness test and `0` is
falsy. -/
theorem claim_C10 (t pk : String) (st : DBState) (rid : Nat) (data : Row)
    (now : Value) (action : String) (recId : Option Nat)
    (oldV newV : Option Row) (insertOk updOk delOk auditOk : Bool) :
    create ⟨t, pk, some 0⟩ st data now insertOk auditOk =
      create ⟨t, pk, none⟩ st data now insertOk auditOk ∧
    update ⟨t, pk, some 0⟩ st rid data now updOk auditOk =
      update ⟨t, pk, none⟩ st rid data now updOk auditOk ∧
    delete ⟨t, pk, some 0⟩ st rid now delOk auditOk =
      delete ⟨t, pk, none⟩ st rid now delOk auditOk ∧
    auditLog ⟨t, pk, some 0⟩ st action recId oldV newV now auditOk = st ∧
    (create ⟨t, pk, some 0⟩ st data now true auditOk).2.audit = st.audit := by
  have htr : uidTruthy (some 0) = false := by simp [uidTruthy]
  refine ⟨?_, ?_, ?_, ?_, ?_⟩
  · simp [create, fillCreate, setIfAbsent, auditLog, htr, uidTruthy]
  · unfold update
    cases readRec st rid with
    | none => rfl
    | some old => simp [fillUpdate, auditLog, htr, uidTruthy]
  · unfold delete
    cases readRec st rid with
    | none => rfl
    | some old => simp [auditLog, htr, uidTruthy]
  · simp [auditLog, htr]
  · simp [create, fillCreate, setIfAbsent, auditLog, htr]

/-! ### Claim C4 -/

/-- Claim C4: for every body run inside the scoped `transaction()` with
no transaction already open: on normal completion the body's final state
is committed; on an exception the committed state is unchanged and the
same exception is re-raised; and on every exit path no transaction is
left open. -/
theorem claim_C4 {σ α : Type} (c : Conn σ) (body : σ → PyResult α × σ)
    (_hTx : c.openTx = none) :
    (∀ a s1, body c.committed = (.ok a, s1) →
       transaction c body = (.ok a, ⟨s1, none⟩)) ∧
    (∀ e s1, body c.committed = (.exn e, s1) →
       transaction c body = (.exn e, ⟨c.committed, none⟩)) ∧
    (transaction c body).2.openTx = none := by
  refine ⟨?_, ?_, ?_⟩
  · intro a s1 hb
    simp [transaction, beginTx, runBody, commitTx, hb]
  · intro e s1 hb
    simp [transaction, beginTx, runBody, rollbackTx, hb]
  · unfold transaction beginTx runBody
    cases hb : body c.committed with
    | mk r s1 =>
      cases r <;> simp [hb, commitTx, rollbackTx]

/-- Witness for C4: a concrete committed state and bodies — one normal,
one raising — exercising both exit paths of the scoped transaction. -/
theorem claim_C4_witness :
    (⟨0, none⟩ : Conn Nat).openTx = none ∧
    transaction (⟨0, none⟩ : Conn Nat) (fun s => (.ok true, s + 1)) =
      (.ok true, ⟨1, none⟩) ∧
    transaction (⟨0, none⟩ : Conn Nat)
      (fun s => ((.exn "boom" : PyResult Bool), s + 1)) =
      (.exn "boom", ⟨0, none⟩) := by
  refine ⟨rfl, ?_, ?_⟩
  · exact (claim_C4 ⟨0, none⟩ (fun s => (.ok true, s + 1)) rfl).1 true 1 rfl
  · exact (claim_C4 ⟨0, none⟩ (fun s => ((.exn "boom" : PyResult Bool), s + 1))
      rfl).2.1 "boom" 1 rfl

/-! ### Claims C1 and C2 -/

/-- A concrete model instance: table `nomenclature`, acting principal 7. -/
def mB : BaseModel := ⟨"nomenclature", "id", some 7⟩

/-- A concrete store holding one record with id 1. -/
def stOne : DBState := ⟨⟨[(1, [("name", Value.str "x")])], 2⟩, []⟩

/-- Counterexample to C1: with acting principal 7, a create whose data
INSERT succeeds but whose audit INSERT fails still returns the new id,
the new row persists (nothing rolls back — `_audit_log` swallows the
exception and the connection is in autocommit mode), and zero audit
entries exist. -/
theorem claim_C1_counterexample :
    (create ⟨"nomenclature", "id", some 7⟩ ⟨⟨[], 1⟩, []⟩
        [("name", Value.str "x")] (Value.str "t") true false).1 =
      .ok (some 1) ∧
    (create ⟨"nomenclature", "id", some 7⟩ ⟨⟨[], 1⟩, []⟩
        [("name", Value.str "x")] (Value.str "t") true false).2.table.rows =
      [(1, [("name", Value.str "x"), ("created_at", Value.str "t"),
            ("updated_at", Value.str "t"), ("created_by", Value.int 7)])] ∧
    (create ⟨"nomenclature", "id", some 7⟩ ⟨⟨[], 1⟩, []⟩
        [("name", Value.str "x")] (Value.str "t") true false).2.audit = [] := by
  decide

/-- Amended C1: for every mutating operation with a truthy acting
principal whose data statement the engine accepts, exactly one Audit
Entry is appended when the audit INSERT succeeds; when the audit INSERT
fails, the failure is logged and swallowed — the data change persists
(no rollback) and no audit entry is written. -/
theorem claim_C1_amended (m : BaseModel) (st : DBState) (data : Row)
    (now : Value) (uid : Int) (rid : Nat) (auditOk : Bool)
    (hm : m.audit_user_id = some uid) (huid : uid ≠ 0) :
    (∃ e, (create m st data now true auditOk).2.audit =
        st.audit ++ (if auditOk then [e] else [])) ∧
    (create m st data now true auditOk).2.table.rows.length =
      st.table.rows.length + 1 ∧
    (∀ old, readRec st rid = some old →
      (∃ e, (update m st rid data now true auditOk).2.audit =
          st.audit ++ (if auditOk then [e] else [])) ∧
      (update m st rid data now true auditOk).1 = .ok true) ∧
    (∀ old, readRec st rid = some old →
      (∃ e, (delete m st rid now true auditOk).2.audit =
          st.audit ++ (if auditOk then [e] else [])) ∧
      (delete m st rid now true auditOk).1 = .ok true) := by
  have htr : uidTruthy m.audit_user_id = true := by
    simp [hm, uidTruthy, huid]
  have htr2 : uidTruthy (some uid) = true := by
    simp [uidTruthy, huid]
  refine ⟨?_, ?_, ?_, ?_⟩
  · cases auditOk with
    | true =>
      refine ⟨⟨uid, "CREATE", m.table_name, some st.table.nextId, none,
        serializeVals (some (fillCreate m data now)), now⟩, ?_⟩
      simp [create, auditLog, htr, htr2, hm, serializeVals]
    | false =>
      refine ⟨⟨uid, "CREATE", m.table_name, some st.table.nextId, none,
        none, now⟩, ?_⟩
      simp [create, auditLog, htr]
  · simp [create, auditLog_table]
  · intro old hold
    constructor
    · cases auditOk with
      | true =>
        refine ⟨⟨uid, "UPDATE", m.table_name, some rid,
          serializeVals (some old),
          serializeVals (some (fillUpdate m data now)), now⟩, ?_⟩
        simp [update, hold, auditLog, htr, htr2, hm, serializeVals]
      | false =>
        refine ⟨⟨uid, "UPDATE", m.table_name, some rid, none, none, now⟩, ?_⟩
        simp [update, hold, auditLog, htr]
    · simp [update, hold]
  · intro old hold
    constructor
    · cases auditOk with
      | true =>
        refine ⟨⟨uid, "DELETE", m.table_name, some rid,
          serializeVals (some old), none, now⟩, ?_⟩
        simp [delete, hold, auditLog, htr, htr2, hm, serializeVals]
      | false =>
        refine ⟨⟨uid, "DELETE", m.table_name, some rid, none, none, now⟩, ?_⟩
        simp [delete, hold, auditLog, htr]
    · simp [delete, hold]

/-- Witness for amended C1: a concrete create with principal 7 — with
the audit INSERT succeeding, exactly one entry is appended; the data row
persists. -/
theorem claim_C1_amended_witness :
    ((⟨"nomenclature", "id", some 7⟩ : BaseModel).audit_user_id = some 7 ∧
      (7 : Int) ≠ 0) ∧
    (∃ e, (create ⟨"nomenclature", "id", some 7⟩ ⟨⟨[], 1⟩, []⟩
        [("name", Value.str "x")] (Value.str "t") true true).2.audit =
        [] ++ (if true then [e] else [])) ∧
    (create ⟨"nomenclature", "id", some 7⟩ ⟨⟨[], 1⟩, []⟩
        [("name", Value.str "x")] (Value.str "t") true true).2.table.rows.length =
      ([] : List (Nat × Row)).length + 1 := by
  have h := claim_C1_amended ⟨"nomenclature", "id", some 7⟩ ⟨⟨[], 1⟩, []⟩
    [("name", Value.str "x")] (Value.str "t") 7 1 true rfl (by decide)
  exact ⟨⟨rfl, by decide⟩, h.1, h.2.1⟩

/-- Counterexample to C2: the store engine rejects the UPDATE (resp.
DELETE) statement on an existing record — a constraint violation — yet
`update` / `delete` return the boolean False with the store unchanged
instead of propagating an exception: the failure is swallowed into a
boolean return. -/
theorem claim_C2_counterexample :
    readRec stOne 1 = some [("name", Value.str "x")] ∧
    update mB stOne 1 [("name", Value.str "y")] (Value.str "t2") false true =
      (.ok false, stOne) ∧
    delete mB stOne 1 (Value.str "t2") false true = (.ok false, stOne) := by
  decide

/-- Amended C2: a store-engine failure on `create`'s INSERT is logged
and re-raised to the caller; but `update` and `delete` catch every
engine failure on an existing record, log it, and convert it into a
False return with the store unchanged. -/
theorem claim_C2_amended (m : BaseModel) (st : DBState) (data : Row)
    (now : Value) (rid : Nat) (auditOk : Bool) :
    (∃ msg, create m st data now false auditOk = (.exn msg, st)) ∧
    (∀ old, readRec st rid = some old →
       update m st rid data now false auditOk = (.ok false, st)) ∧
    (∀ old, readRec st rid = some old →
       delete m st rid now false auditOk = (.ok false, st)) := by
  refine ⟨⟨"IntegrityError", ?_⟩, ?_, ?_⟩
  · simp [create]
  · intro old hold
    simp [update, hold]
  · intro old hold
    simp [delete, hold]

/-- Witness for amended C2: concrete instances of all three conjuncts —
a rejected create raises, a rejected update and delete on the existing
record 1 return False and leave the store unchanged. -/
theorem claim_C2_amended_witness :
    (∃ msg, create mB stOne [("name", Value.str "y")] (Value.str "t2")
        false true = (.exn msg, stOne)) ∧
    readRec stOne 1 = some [("name", Value.str "x")] ∧
    update mB stOne 1 [("name", Value.str "y")] (Value.str "t2") false true =
      (.ok false, stOne) ∧
    delete mB stOne 1 (Value.str "t2") false true = (.ok false, stOne) := by
  have h := claim_C2_amended mB stOne [("name", Value.str "y")]
    (Value.str "t2") 1 true
  refine ⟨h.1, by decide, ?_, ?_⟩
  · exact h.2.1 [("name", Value.str "x")] (by decide)
  · exact h.2.2 [("name", Value.str "x")] (by decide)

/-! ### Claim C8 -/

theorem rowGet_rowSet_ne (r : Row) (k1 : String) (v1 : Value) (k : String)
    (h : k ≠ k1) : rowGet (rowSet r k1 v1) k = rowGet r k := by
  rw [rowGet_rowSet, if_neg h]

theorem rowGet_extend (r : Row) (k1 : String) (v1 : Value) (k : String)
    (v : Value) (h : rowGet r k = some v) (habs : rowHas r k1 = false) :
    rowGet (rowSet r k1 v1) k = some v := by
  rw [rowGet_rowSet]
  by_cases hk : k = k1
  · subst hk
    rw [rowGet_none_of_not_has r k habs] at h
    exact absurd h (by simp)
  · rw [if_neg hk]; exact h

theorem rowGet_setIfAbsent_mem (r : Row) (k1 : String) (v1 : Value)
    (k : String) (v : Value) (h : rowGet r k = some v) :
    rowGet (setIfAbsent r k1 v1) k = some v := by
  unfold setIfAbsent
  split
  · exact h
  · next hna => exact rowGet_extend _ _ _ _ _ h (by simpa using hna)

theorem rowGet_setIfAbsent_ne (r : Row) (k1 : String) (v1 : Value)
    (k : String) (h : k ≠ k1) :
    rowGet (setIfAbsent r k1 v1) k = rowGet r k := by
  unfold setIfAbsent
  split
  · rfl
  · exact rowGet_rowSet_ne _ _ _ _ h

theorem rowHas_setIfAbsent_self (r : Row) (k1 : String) (v1 : Value) :
    rowHas (setIfAbsent r k1 v1) k1 = true := by
  unfold setIfAbsent
  split
  · next hh => exact hh
  · unfold rowHas
    rw [rowGet_rowSet, if_pos rfl]
    rfl

theorem find?_append_fresh (l : List (Nat × Row)) (rid : Nat) (row : Row)
    (h : ∀ p ∈ l, p.1 ≠ rid) :
    (l ++ [(rid, row)]).find? (fun p => decide (p.1 = rid)) = some (rid, row) := by
  rw [List.find?_append]
  have h1 : l.find? (fun p => decide (p.1 = rid)) = none := by
    rw [List.find?_eq_none]
    intro x hx
    simp [h x hx]
  rw [h1]
  simp [List.find?]

/-- Claim C8: create followed by read of the returned id yields the
stored record; that record contains every caller-supplied field with its
value unmodified, has `created_at` / `updated_at` populated, and — the
acting principal being set (truthy) — has `created_by` auto-filled when
the caller did not supply it. -/
theorem claim_C8 (m : BaseModel) (st : DBState) (data : Row) (now : Value)
    (uid : Int) (auditOk : Bool)
    (hm : m.audit_user_id = some uid) (huid : uid ≠ 0)
    (hfresh : ∀ p ∈ st.table.rows, p.1 ≠ st.table.nextId) :
    (create m st data now true auditOk).1 = .ok (some st.table.nextId) ∧
    readRec (create m st data now true auditOk).2 st.table.nextId =
      some (fillCreate m data now) ∧
    (∀ k v, rowGet data k = some v →
       rowGet (fillCreate m data now) k = some v) ∧
    (rowGet (fillCreate m data now) "created_at").isSome = true ∧
    (rowGet (fillCreate m data now) "updated_at").isSome = true ∧
    (rowGet data "created_by" = none →
       rowGet (fillCreate m data now) "created_by" = some (Value.int uid)) := by
  have htr : uidTruthy m.audit_user_id = true := by
    simp [hm, uidTruthy, huid]
  refine ⟨?_, ?_, ?_, ?_, ?_, ?_⟩
  · simp [create]
  · have ht : (create m st data now true auditOk).2.table =
        { rows := st.table.rows ++ [(st.table.nextId, fillCreate m data now)]
          nextId := st.table.nextId + 1 } := by
      simp [create, auditLog_table]
    unfold readRec
    rw [ht]
    rw [find?_append_fresh st.table.rows st.table.nextId (fillCreate m data now) hfresh]
    rfl
  · intro k v h
    have h1 := rowGet_setIfAbsent_mem data "created_at" now k v h
    have h2 := rowGet_setIfAbsent_mem (setIfAbsent data "created_at" now)
      "updated_at" now k v h1
    simp only [fillCreate]
    split
    · next hc =>
      refine rowGet_extend _ _ _ _ _ h2 ?_
      have h3 := (Bool.and_eq_true _ _).mp hc
      simpa using h3.2
    · exact h2
  · have ha : rowHas (setIfAbsent data "created_at" now) "created_at" = true :=
      rowHas_setIfAbsent_self data "created_at" now
    have hb : rowGet (setIfAbsent (setIfAbsent data "created_at" now)
        "updated_at" now) "created_at" =
        rowGet (setIfAbsent data "created_at" now) "created_at" :=
      rowGet_setIfAbsent_ne _ _ _ _ (by decide)
    simp only [fillCreate]
    split
    · rw [rowGet_rowSet_ne _ _ _ _ (by decide), hb]
      exact ha
    · rw [hb]
      exact ha
  · have ha : rowHas (setIfAbsent (setIfAbsent data "created_at" now)
        "updated_at" now) "updated_at" = true :=
      rowHas_setIfAbsent_self _ "updated_at" now
    simp only [fillCreate]
    split
    · rw [rowGet_rowSet_ne _ _ _ _ (by decide)]
      exact ha
    · exact ha
  · intro h
    have e1 : rowGet (setIfAbsent data "created_at" now) "created_by" = none := by
      rw [rowGet_setIfAbsent_ne _ _ _ _ (by decide)]
      exact h
    have e2 : rowGet (setIfAbsent (setIfAbsent data "created_at" now)
        "updated_at" now) "created_by" = none := by
      rw [rowGet_setIfAbsent_ne _ _ _ _ (by decide)]
      exact e1
    have hc : (uidTruthy m.audit_user_id &&
        !rowHas (setIfAbsent (setIfAbsent data "created_at" now)
          "updated_at" now) "created_by") = true := by
      rw [htr]
      unfold rowHas
      rw [e2]
      rfl
    simp only [fillCreate, hc, if_true]
    rw [rowGet_rowSet, if_pos rfl, hm]
    rfl

/-- Witness for C8: creating a concrete record in an empty store with
principal 7 — the read-back row keeps the caller's field `name`, gains
timestamps, and gains `created_by` 7. -/
theorem claim_C8_witness :
    (∀ p ∈ ((⟨⟨[], 1⟩, []⟩ : DBState)).table.rows, p.1 ≠ 1) ∧
    readRec (create ⟨"nomenclature", "id", some 7⟩ ⟨⟨[], 1⟩, []⟩
        [("name", Value.str "x")] (Value.str "t") true true).2 1 =
      some (fillCreate ⟨"nomenclature", "id", some 7⟩
        [("name", Value.str "x")] (Value.str "t")) ∧
    rowGet (fillCreate ⟨"nomenclature", "id", some 7⟩
        [("name", Value.str "x")] (Value.str "t")) "created_by" =
      some (Value.int 7) := by
  have h := claim_C8 ⟨"nomenclature", "id", some 7⟩ ⟨⟨[], 1⟩, []⟩
    [("name", Value.str "x")] (Value.str "t") 7 true rfl (by decide)
    (by intro p hp; simp at hp)
  exact ⟨by intro p hp; simp at hp, h.2.1, h.2.2.2.2.2 (by decide)⟩

/-! ### Claim C9 -/

/-- The spec's description of find: keep the rows matched by the
conjunction (AND) of all shape-dispatched predicate entries — every
entry for the empty map, hence all rows — then order and paginate. -/
def findSpec (rows : List Row) (conds : List (String × CondVal))
    (orderBy : Option String) (lim off : Option Nat) : List Row :=
  applyPage (applyOrder
    (rows.filter (fun r => conds.all (fun p => specMatch r p.1 p.2))) orderBy)
    lim off

theorem all_buildWhere (r : Row) (conds : List (String × CondVal)) :
    (buildWhere conds).all (evalClause r) =
      conds.all (fun p => specMatch r p.1 p.2) := by
  induction conds with
  | nil => rfl
  | cons hd tl ih =>
    obtain ⟨k, cv⟩ := hd
    cases cv <;> simp [buildWhere, evalClause, specMatch, ih, List.all_cons]

theorem length_buildWhere (conds : List (String × CondVal)) :
    (buildWhere conds).length = conds.length := by
  induction conds with
  | nil => rfl
  | cons hd tl ih =>
    obtain ⟨k, cv⟩ := hd
    cases cv <;> simp [buildWhere, ih]

/-- Claim C9: find interprets each predicate entry by value shape —
null as an IS NULL test, a sequence as a set-membership test, any other
literal as an equality test — combines entries conjunctively, and with
an empty predicate map selects all rows (ordering and pagination applied
as given); with no arguments at all it returns the table verbatim. -/
theorem claim_C9 (rows : List Row) (conds : List (String × CondVal))
    (orderBy : Option String) (lim off : Option Nat) :
    find rows conds orderBy lim off = findSpec rows conds orderBy lim off ∧
    find rows [] none none none = rows := by
  constructor
  · unfold find findSpec
    have hxy : (if conds.isEmpty then rows
        else
          let wcs := buildWhere conds
          if wcs.isEmpty then rows
          else rows.filter (fun r => wcs.all (evalClause r))) =
        rows.filter (fun r => conds.all (fun p => specMatch r p.1 p.2)) := by
      cases conds with
      | nil => simp
      | cons hd tl =>
        have hne : buildWhere (hd :: tl) ≠ [] := by
          intro hh
          have hlen := congrArg List.length hh
          rw [length_buildWhere] at hlen
          simp at hlen
        have hemp : (buildWhere (hd :: tl)).isEmpty = false := by
          cases hb : buildWhere (hd :: tl) with
          | nil => exact absurd hb hne
          | cons a l => rfl
        have hfun : (fun r => (buildWhere (hd :: tl)).all (evalClause r))
            = (fun r => (hd :: tl).all (fun p => specMatch r p.1 p.2)) :=
          funext (fun r => all_buildWhere r (hd :: tl))
        simp only [List.isEmpty_cons, hemp, if_false, Bool.false_eq_true]
        rw [hfun]
    rw [hxy]
  · simp [find, applyOrder, applyPage]

/-! ### Claim C7 -/

/-- Claim C7: authenticate returns absent uniformly when no active
principal with the username joins to a role, when all principals with
that username are deactivated (even with correct credentials), and when
the password does not verify; on success it returns the principal's data
together with the role's five capability flags. -/
theorem claim_C7 (users : List UserRow) (roles : List RoleRow)
    (verify : String → String → Bool) (username password : String) :
    (lookupActive users roles username = none →
       authenticate users roles verify username password = none) ∧
    (∀ u r, lookupActive users roles username = some (u, r) →
       verify password u.password_hash = false →
       authenticate users roles verify username password = none) ∧
    ((∀ u ∈ users, u.username = username → u.is_active = false) →
       authenticate users roles verify username password = none) ∧
    (∀ u r, lookupActive users roles username = some (u, r) →
       verify password u.password_hash = true →
       authenticate users roles verify username password =
         some ⟨u.id, u.username, u.password_hash, u.full_name, u.is_active,
               u.role_id, r.name, r.can_read, r.can_write, r.can_delete,
               r.can_approve, r.can_admin⟩) := by
  refine ⟨?_, ?_, ?_, ?_⟩
  · intro h
    simp [authenticate, h]
  · intro u r h hv
    simp [authenticate, h, hv]
  · intro h
    have hl : lookupActive users roles username = none := by
      unfold lookupActive
      have hf : users.find?
          (fun u => decide (u.username = username) && u.is_active) = none := by
        rw [List.find?_eq_none]
        intro u hu hcontra
        rw [Bool.and_eq_true] at hcontra
        have hname := of_decide_eq_true hcontra.1
        have hact := h u hu hname
        rw [hact] at hcontra
        exact absurd hcontra.2 (by simp)
      rw [hf]
      rfl
    simp [authenticate, hl]
  · intro u r h hv
    simp [authenticate, h, hv]

/-- A concrete bootstrap administrator principal, active, role 1. -/
def admUser : UserRow := ⟨1, "admin", "h1", "Administrator", true, 1⟩

/-- A concrete administrator role with all five capability flags. -/
def admRole : RoleRow := ⟨1, "admin", true, true, true, true, true⟩

/-- A concrete injected password-verification capability: only the
plaintext `pw` verifies against the stored hash `h1`. -/
def vf : String → String → Bool :=
  fun p h => decide (p = "pw") && decide (h = "h1")

/-- Witness for C7: with one active admin, a wrong password yields
absent and the right password yields the joined data with all five
capability flags. -/
theorem claim_C7_witness :
    lookupActive [admUser] [admRole] "admin" = some (admUser, admRole) ∧
    authenticate [admUser] [admRole] vf "admin" "bad" = none ∧
    authenticate [admUser] [admRole] vf "admin" "pw" =
      some ⟨1, "admin", "h1", "Administrator", true, 1, "admin",
            true, true, true, true, true⟩ := by
  have h := claim_C7 [admUser] [admRole] vf "admin"
  refine ⟨by decide, ?_, ?_⟩
  · exact (h "bad").2.1 admUser admRole (by decide) (by decide)
  · exact (h "pw").2.2.2 admUser admRole (by decide) (by decide)

/-! ### Claim C3 -/

theorem transaction_ok {σ α : Type} (c : Conn σ) (body : σ → PyResult α × σ)
    (a : α) (s1 : σ) (hb : body c.committed = (.ok a, s1)) :
    transaction c body = (.ok a, ⟨s1, none⟩) := by
  simp [transaction, beginTx, runBody, commitTx, hb]

theorem transaction_exn {σ α : Type} (c : Conn σ) (body : σ → PyResult α × σ)
    (e : String) (s1 : σ) (hb : body c.committed = (.exn e, s1)) :
    transaction c body = (.exn e, ⟨c.committed, none⟩) := by
  simp [transaction, beginTx, runBody, rollbackTx, hb]

theorem runStmts_ok : ∀ (stmts : List Stmt) (db : MigDB),
    (∀ s ∈ stmts, s.ok = true) →
    runStmts db stmts =
      (.ok (), { db with schema := db.schema ++ stmts.map Stmt.eff })
  | [], db, _ => by simp [runStmts]
  | s :: rest, db, h => by
    have hs : s.ok = true := h s (List.mem_cons_self _ _)
    have ih := runStmts_ok rest { db with schema := db.schema ++ [s.eff] }
      (fun t ht => h t (List.mem_cons_of_mem _ ht))
    simp [runStmts, hs, ih, List.append_assoc]

theorem runStmts_fail : ∀ (stmts : List Stmt) (db : MigDB),
    (∃ s ∈ stmts, s.ok = false) →
    ∃ e db1, runStmts db stmts = (.exn e, db1)
  | [], _, h => by simp at h
  | s :: rest, db, h => by
    by_cases hs : s.ok = true
    · have hrest : ∃ t ∈ rest, t.ok = false := by
        obtain ⟨t, ht, hf⟩ := h
        cases List.mem_cons.mp ht with
        | inl heq =>
          subst heq
          rw [hf] at hs
          exact absurd hs (by simp)
        | inr hmem => exact ⟨t, hmem, hf⟩
      obtain ⟨e, db1, he⟩ :=
        runStmts_fail rest { db with schema := db.schema ++ [s.eff] } hrest
      exact ⟨e, db1, by simp [runStmts, hs, he]⟩
    · have hs2 : s.ok = false := by
        revert hs
        cases s.ok <;> simp
      exact ⟨"statement failed: " ++ s.eff, db, by simp [runStmts, hs2]⟩

theorem apply_migration_ok (c : Conn MigDB) (version : Nat) (name : String)
    (stmts : List Stmt) (hok : ∀ s ∈ stmts, s.ok = true)
    (hfresh : ∀ p ∈ c.committed.ledger, p.1 ≠ version) :
    apply_migration c version name stmts =
      (.ok (), ⟨⟨c.committed.schema ++ stmts.map Stmt.eff,
                 c.committed.ledger ++ [(version, name)]⟩, none⟩) := by
  have hrs := runStmts_ok stmts c.committed hok
  apply transaction_ok
  have hany : c.committed.ledger.any (fun p => decide (p.1 = version)) = false := by
    rw [List.any_eq_false]
    intro p hp
    simp [hfresh p hp]
  simp [applyMigrationBody, hrs, ledgerInsert, hany]

/-- Claim C3: apply_migration is all-or-nothing — if any statement
fails, the migration's transaction rolls back, the committed state is
exactly the pre-call state (no partial schema change, no ledger row),
and the failure propagates; if all statements succeed and the version is
new, every statement's effect is committed and the ledger row exists;
and no transaction is left open either way. -/
theorem claim_C3 (c : Conn MigDB) (version : Nat) (name : String)
    (stmts : List Stmt) (_hTx : c.openTx = none) :
    ((∃ s ∈ stmts, s.ok = false) →
       ∃ e, apply_migration c version name stmts =
         (.exn e, ⟨c.committed, none⟩)) ∧
    ((∀ s ∈ stmts, s.ok = true) →
       (∀ p ∈ c.committed.ledger, p.1 ≠ version) →
       apply_migration c version name stmts =
         (.ok (), ⟨⟨c.committed.schema ++ stmts.map Stmt.eff,
                    c.committed.ledger ++ [(version, name)]⟩, none⟩)) ∧
    (apply_migration c version name stmts).2.openTx = none := by
  refine ⟨?_, ?_, ?_⟩
  · intro hf
    obtain ⟨e, db1, he⟩ := runStmts_fail stmts c.committed hf
    exact ⟨e, transaction_exn _ _ _ db1 (by simp [applyMigrationBody, he])⟩
  · intro hok hfresh
    exact apply_migration_ok c version name stmts hok hfresh
  · unfold apply_migration
    cases hb : applyMigrationBody version name stmts c.committed with
    | mk r db1 =>
      cases r <;>
        simp [transaction, beginTx, runBody, commitTx, rollbackTx, hb]

/-- Witness for C3: one succeeding statement applied from a fresh
database — committed schema gains the statement's effect and the ledger
gains version 1. -/
theorem claim_C3_witness :
    (⟨⟨[], []⟩, none⟩ : Conn MigDB).openTx = none ∧
    apply_migration ⟨⟨[], []⟩, none⟩ 1 "initial_schema" [⟨true, "tables"⟩] =
      (.ok (), ⟨⟨["tables"], [(1, "initial_schema")]⟩, none⟩) := by
  have h := claim_C3 ⟨⟨[], []⟩, none⟩ 1 "initial_schema" [⟨true, "tables"⟩] rfl
  exact ⟨rfl, h.2.1 (by decide) (by simp)⟩

/-! ### Claim C6 -/

theorem mem_sortedInsert (v x : Nat) : ∀ (l : List Nat),
    x ∈ sortedInsert v l ↔ x = v ∨ x ∈ l
  | [] => by simp [sortedInsert]
  | y :: ys => by
    unfold sortedInsert
    split
    · simp [List.mem_cons]
    · simp only [List.mem_cons, mem_sortedInsert v x ys]
      tauto

theorem mem_sortAsc (x : Nat) : ∀ (l : List Nat), x ∈ sortAsc l ↔ x ∈ l
  | [] => Iff.rfl
  | y :: ys => by
    unfold sortAsc
    rw [mem_sortedInsert, mem_sortAsc x ys]
    simp [List.mem_cons]

theorem mem_get_applied (v : Nat) (db : MigDB) :
    v ∈ get_applied db ↔ v ∈ db.ledger.map (fun p => p.1) := by
  unfold get_applied
  exact mem_sortAsc _ _

theorem runAllLoop_skip_all : ∀ (migs : List (Nat × String × List Stmt))
    (c : Conn MigDB) (applied : List Nat),
    (∀ mg ∈ migs, mg.1 ∈ applied) →
    runAllLoop c applied migs = (.ok (), c)
  | [], _, _, _ => rfl
  | (v, n, stmts) :: rest, c, applied, h => by
    have hv : v ∈ applied := h (v, n, stmts) (List.mem_cons_self _ _)
    have ih := runAllLoop_skip_all rest c applied
      (fun mg hmg => h mg (List.mem_cons_of_mem _ hmg))
    simp [runAllLoop, hv, ih]

theorem runAllLoop_spec : ∀ (migs : List (Nat × String × List Stmt))
    (c : Conn MigDB) (applied : List Nat),
    c.openTx = none →
    (∀ mg ∈ migs, ∀ s ∈ mg.2.2, s.ok = true) →
    (migs.map (fun mg => mg.1)).Pairwise (· ≠ ·) →
    (∀ mg ∈ migs, mg.1 ∉ applied → ∀ p ∈ c.committed.ledger, p.1 ≠ mg.1) →
    ∃ sch, runAllLoop c applied migs =
      (.ok (), ⟨⟨sch, c.committed.ledger ++
        (migs.filter (fun mg => decide (mg.1 ∉ applied))).map
          (fun mg => (mg.1, mg.2.1))⟩, none⟩)
  | [], c, applied, hTx, _, _, _ => by
    refine ⟨c.committed.schema, ?_⟩
    obtain ⟨⟨sch0, led0⟩, otx⟩ := c
    simp only at hTx
    subst hTx
    simp [runAllLoop]
  | (v, n, stmts) :: rest, c, applied, hTx, hok, hdist, hfresh => by
    rw [List.map_cons] at hdist
    obtain ⟨hdh, hdt⟩ := List.pairwise_cons.mp hdist
    by_cases hv : v ∈ applied
    · obtain ⟨sch, hrun⟩ := runAllLoop_spec rest c applied hTx
        (fun mg hmg => hok mg (List.mem_cons_of_mem _ hmg))
        hdt
        (fun mg hmg hna => hfresh mg (List.mem_cons_of_mem _ hmg) hna)
      refine ⟨sch, ?_⟩
      have hfilt : decide (((v, n, stmts) : Nat × String × List Stmt).1 ∉ applied)
          = false := by simp [hv]
      simp [runAllLoop, hv, hrun, List.filter_cons, hfilt]
    · have hvstmts : ∀ s ∈ stmts, s.ok = true :=
        hok (v, n, stmts) (List.mem_cons_self _ _)
      have hfr : ∀ p ∈ c.committed.ledger, p.1 ≠ v :=
        hfresh (v, n, stmts) (List.mem_cons_self _ _) hv
      have happ := apply_migration_ok c v n stmts hvstmts hfr
      obtain ⟨sch, hrun⟩ := runAllLoop_spec rest
        ⟨⟨c.committed.schema ++ stmts.map Stmt.eff,
          c.committed.ledger ++ [(v, n)]⟩, none⟩ applied rfl
        (fun mg hmg => hok mg (List.mem_cons_of_mem _ hmg))
        hdt
        (fun mg hmg hna p hp => by
          cases List.mem_append.mp hp with
          | inl hpold => exact hfresh mg (List.mem_cons_of_mem _ hmg) hna p hpold
          | inr hpnew =>
            have hpv : p = (v, n) := by simpa using hpnew
            subst hpv
            exact hdh mg.1 (List.mem_map.mpr ⟨mg, hmg, rfl⟩))
      refine ⟨sch, ?_⟩
      have hfilt : decide (((v, n, stmts) : Nat × String × List Stmt).1 ∉ applied)
          = true := by simp [hv]
      simp only [runAllLoop, if_neg hv, happ]
      rw [hrun]
      simp [List.filter_cons, hfilt, hv, List.append_assoc]

/-- Claim C6: with every migration script acceptable to the engine,
run_all applies exactly the migrations whose versions are absent from
the ledger — the ledger gains precisely those (version, name) rows, in
strictly ascending version order — and a second consecutive run_all
applies nothing and leaves the state (so the ledger) unchanged. -/
theorem claim_C6 (c : Conn MigDB) (s1 s2 s3 : List Stmt)
    (hTx : c.openTx = none)
    (h1 : ∀ s ∈ s1, s.ok = true) (h2 : ∀ s ∈ s2, s.ok = true)
    (h3 : ∀ s ∈ s3, s.ok = true) :
    (∃ sch, run_all c (all_migrations s1 s2 s3) =
      (.ok (), ⟨⟨sch, c.committed.ledger ++
        ((all_migrations s1 s2 s3).filter
          (fun mg => decide (mg.1 ∉ get_applied c.committed))).map
          (fun mg => (mg.1, mg.2.1))⟩, none⟩)) ∧
    ((((all_migrations s1 s2 s3).filter
        (fun mg => decide (mg.1 ∉ get_applied c.committed))).map
        (fun mg => mg.1)).Pairwise (· < ·)) ∧
    (∀ c2, run_all c (all_migrations s1 s2 s3) = (.ok (), c2) →
       run_all c2 (all_migrations s1 s2 s3) = (.ok (), c2)) := by
  have hok : ∀ mg ∈ all_migrations s1 s2 s3, ∀ s ∈ mg.2.2, s.ok = true := by
    intro mg hmg
    simp only [all_migrations, List.mem_cons, List.mem_singleton] at hmg
    rcases hmg with h | h | h | h
    · subst h; exact h1
    · subst h; exact h2
    · subst h; exact h3
    · simp at h
  have hmapfst : (all_migrations s1 s2 s3).map (fun mg => mg.1) = [1, 2, 3] := rfl
  have hdist : ((all_migrations s1 s2 s3).map (fun mg => mg.1)).Pairwise (· ≠ ·) := by
    rw [hmapfst]; decide
  have hfresh : ∀ mg ∈ all_migrations s1 s2 s3,
      mg.1 ∉ get_applied c.committed →
      ∀ p ∈ c.committed.ledger, p.1 ≠ mg.1 := by
    intro mg _ hna p hp heq
    exact hna ((mem_get_applied _ _).mpr (List.mem_map.mpr ⟨p, hp, heq⟩))
  have hmain := runAllLoop_spec (all_migrations s1 s2 s3) c
    (get_applied c.committed) hTx hok hdist hfresh
  refine ⟨hmain, ?_, ?_⟩
  · refine List.Pairwise.sublist ((List.filter_sublist _).map _) ?_
    rw [hmapfst]
    decide
  · intro c2 hc2
    obtain ⟨sch, hrun⟩ := hmain
    have hrun2 : run_all c (all_migrations s1 s2 s3) =
        (.ok (), ⟨⟨sch, c.committed.ledger ++
          ((all_migrations s1 s2 s3).filter
            (fun mg => decide (mg.1 ∉ get_applied c.committed))).map
            (fun mg => (mg.1, mg.2.1))⟩, none⟩) := hrun
    rw [hrun2] at hc2
    have hc2eq : c2 = ⟨⟨sch, c.committed.ledger ++
        ((all_migrations s1 s2 s3).filter
          (fun mg => decide (mg.1 ∉ get_applied c.committed))).map
          (fun mg => (mg.1, mg.2.1))⟩, none⟩ := by
      have := congrArg Prod.snd hc2
      exact this.symm
    subst hc2eq
    have hmem : ∀ mg ∈ all_migrations s1 s2 s3,
        mg.1 ∈ get_applied (⟨sch, c.committed.ledger ++
          ((all_migrations s1 s2 s3).filter
            (fun mg => decide (mg.1 ∉ get_applied c.committed))).map
            (fun mg => (mg.1, mg.2.1))⟩ : MigDB) := by
      intro mg hmg
      rw [mem_get_applied]
      simp only [List.map_append, List.mem_append]
      by_cases hin : mg.1 ∈ get_applied c.committed
      · left
        exact (mem_get_applied _ _).mp hin
      · right
        have hmemf : mg ∈ (all_migrations s1 s2 s3).filter
            (fun mg => decide (mg.1 ∉ get_applied c.committed)) :=
          List.mem_filter.mpr ⟨hmg, by simpa using hin⟩
        exact List.mem_map.mpr ⟨(mg.1, mg.2.1),
          List.mem_map.mpr ⟨mg, hmemf, rfl⟩, rfl⟩
    exact runAllLoop_skip_all (all_migrations s1 s2 s3) _ _ hmem

/-- Witness for C6: three one-statement migrations on a fresh database —
all hypotheses hold concretely and the second run_all is a no-op. -/
theorem claim_C6_witness :
    ((⟨⟨[], []⟩, none⟩ : Conn MigDB).openTx = none ∧
      (∀ s ∈ [(⟨true, "a"⟩ : Stmt)], s.ok = true) ∧
      (∀ s ∈ [(⟨true, "b"⟩ : Stmt)], s.ok = true) ∧
      (∀ s ∈ [(⟨true, "c"⟩ : Stmt)], s.ok = true)) ∧
    (∀ c2, run_all ⟨⟨[], []⟩, none⟩
        (all_migrations [⟨true, "a"⟩] [⟨true, "b"⟩] [⟨true, "c"⟩]) =
          (.ok (), c2) →
      run_all c2 (all_migrations [⟨true, "a"⟩] [⟨true, "b"⟩] [⟨true, "c"⟩]) =
        (.ok (), c2)) := by
  refine ⟨⟨rfl, by decide, by decide, by decide⟩, ?_⟩
  exact (claim_C6 ⟨⟨[], []⟩, none⟩ [⟨true, "a"⟩] [⟨true, "b"⟩] [⟨true, "c"⟩]
    rfl (by decide) (by decide) (by decide)).2.2

end AisUchet
